import Mathlib

/-!
Shallow embedding of the `chainit` and `chainiter` packages.

Both packages expose a single lazy-iterator wrapper class (`ChainIt` resp.
`ChainIter`).  Every iterator appearing in the library is a deterministic
single-pass cursor over a sequence of elements, so a cursor state is embedded
as the Lean list of the elements it has not produced yet; pulling an element
is taking the head.  A Python value that may be `None` is embedded as an
`Option`: `Option.none` is Python's `None`.  Each operation of the class is
translated into a recursive function on the cursor state, mirroring the loop
or the itertools/functools primitive the Python method delegates to.  An
infinite source (a generator that never stops) is embedded as `Stream'`.
-/

set_option autoImplicit false

namespace chainit

/-- Error value for `functools.reduce` invoked on an empty iterable with no
initial value (the TypeError the Python runtime raises there; the spec calls
it EmptySequence). -/
inductive ChainError where
  | emptySequence
  deriving DecidableEq, Repr

/-- Error value for `itertools.islice` invoked with a negative stop argument
(the ValueError the Python runtime raises there). -/
inductive PyError where
  | valueError
  deriving DecidableEq, Repr

/-- ChainIt.__next__: `next(self._iter)` pulls one element from the cursor.
`Option.none` is StopIteration (normal exhaustion); otherwise the pulled
element and the advanced cursor state are returned. -/
def pyNext {α : Type} : List α → Option (α × List α)
  | [] => Option.none
  | x :: xs => Option.some (x, xs)

/-- ChainIt.collect: `tuple(self._iter)` drains the cursor into an ordered
immutable sequence, preserving yield order. -/
def collectRun {α : Type} : List α → List α
  | [] => []
  | x :: xs => x :: collectRun xs

/-- ChainIt.collect_list: `list(self._iter)` drains the cursor into an ordered
mutable sequence, preserving yield order. -/
def collectListRun {α : Type} : List α → List α
  | [] => []
  | x :: xs => x :: collectListRun xs

/-- ChainIt.collect_set / collect_frozenset: drains the cursor into a
deduplicated unordered set. -/
def collectSetRun {α : Type} (d : DecidableEq α) (l : List α) : Finset α :=
  @List.toFinset α d (collectRun l)

/-- ChainIt.collect_with: `fn(self)` hands the instance itself to `fn`, which
drains it; embedded as `fn` applied to the drained element sequence. -/
def collectWithRun {α β : Type} (fn : List α → β) (l : List α) : β :=
  fn (collectRun l)

/-- Cursor state once a terminal operation has drained the generator: every
element is pulled until StopIteration, none remain. -/
def drainRun {α : Type} : List α → List α
  | [] => []
  | _ :: xs => drainRun xs

/-- ChainIt.map: `map(fn, self._iter)` yields `fn` of each pulled element. -/
def mapRun {α β : Type} (fn : α → β) : List α → List β
  | [] => []
  | x :: xs => fn x :: mapRun fn xs

/-- ChainIt.filter: `filter(fn, self._iter)` yields the pulled elements for
which `fn` returns true, in order. -/
def filterRun {α : Type} (fn : α → Bool) : List α → List α
  | [] => []
  | x :: xs => if fn x then x :: filterRun fn xs else filterRun fn xs

/-- ChainIt.filter_map: the generator
`(result for elem in self._iter if (result := fn(elem)) is not None)` yields
`fn elem` whenever it is not `None`, and drops the element otherwise. -/
def filterMapRun {α β : Type} (fn : α → Option β) : List α → List β
  | [] => []
  | x :: xs =>
    match fn x with
    | Option.some b => b :: filterMapRun fn xs
    | Option.none => filterMapRun fn xs

/-- ChainIt.find: loops over the cursor and returns the first element for
which `fn` is true, or Python `None` once the cursor is exhausted.  Elements
are Python values that may themselves be `None`, so the element type is
`Option γ` and a found element is returned as is. -/
def findRun {γ : Type} (fn : Option γ → Bool) : List (Option γ) → Option γ
  | [] => Option.none
  | x :: xs => if fn x then x else findRun fn xs

/-- ChainIt.flat_map: `chain.from_iterable(map(fn, self._iter))` concatenates
the per-element sequences in order. -/
def flatMapRun {α β : Type} (fn : α → List β) : List α → List β
  | [] => []
  | x :: xs => fn x ++ flatMapRun fn xs

/-- ChainIt.fold: `functools.reduce(fn, self._iter, initializer)` applies
`fn acc elem` left to right starting from the initializer. -/
def foldRun {α β : Type} (fn : β → α → β) (acc : β) : List α → β
  | [] => acc
  | x :: xs => foldRun fn (fn acc x) xs

/-- ChainIt.reduce: `functools.reduce(fn, self._iter)` takes the first pulled
element as the accumulator and folds the rest; on an empty cursor the Python
runtime raises before any call of `fn`. -/
def reduceRun {α : Type} (fn : α → α → α) : List α → Except ChainError α
  | [] => Except.error ChainError.emptySequence
  | x :: xs => Except.ok (foldRun fn x xs)

/-- Loop body of ChainIt.nth: enumerates the pulled elements and returns the
one whose index equals the target, or Python `None` on exhaustion. -/
def nthGo {γ : Type} : Nat → List (Option γ) → Option γ
  | _, [] => Option.none
  | 0, x :: _ => x
  | k + 1, _ :: xs => nthGo k xs

/-- ChainIt.nth: returns `None` for a negative index, otherwise scans the
cursor for the element at the given 0-based index. -/
def nthRun {γ : Type} (n : Int) (l : List (Option γ)) : Option γ :=
  if n < 0 then Option.none else nthGo n.toNat l

/-- Draining loop of `itertools.islice(it, n)` for nonnegative n: pulls at
most n elements. -/
def takeGo {α : Type} : Nat → List α → List α
  | 0, _ => []
  | _ + 1, [] => []
  | k + 1, x :: xs => x :: takeGo k xs

/-- ChainIt.take followed by collect: `islice(self._iter, n)` raises
ValueError when the stop argument is negative, and otherwise yields at most
the first n elements. -/
def takeRun {α : Type} (n : Int) (l : List α) : Except PyError (List α) :=
  if n < 0 then Except.error PyError.valueError
  else Except.ok (takeGo n.toNat l)

/-- Draining loop of `itertools.islice(it, n)` over an infinite source: pulls
exactly n elements. -/
def takeStreamGo {α : Type} : Nat → Stream' α → List α
  | 0, _ => []
  | k + 1, s => s.head :: takeStreamGo k s.tail

/-- ChainIt.take followed by collect, on an infinite source. -/
def takeStreamRun {α : Type} (n : Int) (s : Stream' α) : Except PyError (List α) :=
  if n < 0 then Except.error PyError.valueError
  else Except.ok (takeStreamGo n.toNat s)

/-- ChainIt.take_while followed by collect: `itertools.takewhile(fn, it)`
yields pulled elements while `fn` holds and stops at the first failing
element, which is consumed but not yielded.  Returns the yielded elements and
the cursor state left behind. -/
def takewhileRun {α : Type} (fn : α → Bool) : List α → List α × List α
  | [] => ([], [])
  | x :: xs =>
    if fn x then
      let r := takewhileRun fn xs
      (x :: r.1, r.2)
    else ([], xs)

/-- ChainIt.zip followed by collect: `zip(iter(self), other)` pairs elements
in lockstep and stops as soon as either side is exhausted. -/
def zipRun {α β : Type} : List α → List β → List (α × β)
  | x :: xs, y :: ys => (x, y) :: zipRun xs ys
  | _, _ => []

/-- ChainIt.zip_longest followed by collect:
`itertools.zip_longest(iter(self), other)` pairs elements until both sides
are exhausted, padding the shorter side with `None`. -/
def zipLongestRun {α β : Type} : List α → List β → List (Option α × Option β)
  | [], [] => []
  | x :: xs, [] => (Option.some x, Option.none) :: zipLongestRun xs []
  | [], y :: ys => (Option.none, Option.some y) :: zipLongestRun ([] : List α) ys
  | x :: xs, y :: ys => (Option.some x, Option.some y) :: zipLongestRun xs ys

/-- Loop of the `enumerate` built-in with a running index. -/
def enumGo {α : Type} : Nat → List α → List (Nat × α)
  | _, [] => []
  | i, x :: xs => (i, x) :: enumGo (i + 1) xs

/-- ChainIt.enumerate followed by collect: `enumerate(self)` yields
(index, element) pairs with the index starting at 0. -/
def enumerateRun {α : Type} (l : List α) : List (Nat × α) :=
  enumGo 0 l

/-- The chainit decorator: wraps a function returning an iterable so that it
returns a ChainIt over that iterable; arguments are forwarded unchanged and
only the return value is wrapped (wrapping a list-producing function yields
the cursor over the same list). -/
def decoratorRun {γ α : Type} (fn : γ → List α) : γ → List α :=
  fun a => fn a

/-- The aliasing scenario of §5/§7: `c = ChainIt(src)`, `m = c.map f`,
`v = next(c)`, `r = m.collect()`.  `ChainIt.map` stores `map(fn, self._iter)`
which shares `self._iter`, and `ChainIt.__next__` pulls from that same
generator, so the direct pull advances the cursor the mapped instance reads
from. -/
def reuseAfterMap {α β : Type} (fn : α → β) (src : List α) : Option α × List β :=
  match pyNext src with
  | Option.none => (Option.none, [])
  | Option.some (x, rest) => (Option.some x, collectRun (mapRun fn rest))

end chainit

namespace chainiter

/-- Error value for `functools.reduce` invoked on an empty iterable with no
initial value, as raised under ChainIter.reduce. -/
inductive ChainError where
  | emptySequence
  deriving DecidableEq, Repr

/-- Error value for `itertools.islice` invoked with a negative stop argument,
as raised under ChainIter.take. -/
inductive PyError where
  | valueError
  deriving DecidableEq, Repr

/-- ChainIter.__next__: `next(self._iter)` pulls one element from the
cursor. -/
def pyNext {α : Type} : List α → Option (α × List α)
  | [] => Option.none
  | x :: xs => Option.some (x, xs)

/-- ChainIter.collect: `tuple(self._iter)`. -/
def collectRun {α : Type} : List α → List α
  | [] => []
  | x :: xs => x :: collectRun xs

/-- ChainIter.collect_list: `list(self._iter)`. -/
def collectListRun {α : Type} : List α → List α
  | [] => []
  | x :: xs => x :: collectListRun xs

/-- ChainIter.collect_set / collect_frozenset. -/
def collectSetRun {α : Type} (d : DecidableEq α) (l : List α) : Finset α :=
  @List.toFinset α d (collectRun l)

/-- ChainIter.collect_with: `fn(self)`. -/
def collectWithRun {α β : Type} (fn : List α → β) (l : List α) : β :=
  fn (collectRun l)

/-- ChainIter.map: `map(fn, self._iter)`. -/
def mapRun {α β : Type} (fn : α → β) : List α → List β
  | [] => []
  | x :: xs => fn x :: mapRun fn xs

/-- ChainIter.filter: `filter(fn, self._iter)`. -/
def filterRun {α : Type} (fn : α → Bool) : List α → List α
  | [] => []
  | x :: xs => if fn x then x :: filterRun fn xs else filterRun fn xs

/-- ChainIter.filter_map: drops elements for which `fn` returns `None`. -/
def filterMapRun {α β : Type} (fn : α → Option β) : List α → List β
  | [] => []
  | x :: xs =>
    match fn x with
    | Option.some b => b :: filterMapRun fn xs
    | Option.none => filterMapRun fn xs

/-- ChainIter.find: first element satisfying `fn`, or Python `None`. -/
def findRun {γ : Type} (fn : Option γ → Bool) : List (Option γ) → Option γ
  | [] => Option.none
  | x :: xs => if fn x then x else findRun fn xs

/-- ChainIter.flat_map: `chain.from_iterable(map(fn, self._iter))`. -/
def flatMapRun {α β : Type} (fn : α → List β) : List α → List β
  | [] => []
  | x :: xs => fn x ++ flatMapRun fn xs

/-- ChainIter.fold: `functools.reduce(fn, self._iter, initializer)`. -/
def foldRun {α β : Type} (fn : β → α → β) (acc : β) : List α → β
  | [] => acc
  | x :: xs => foldRun fn (fn acc x) xs

/-- ChainIter.reduce: `functools.reduce(fn, self._iter)`. -/
def reduceRun {α : Type} (fn : α → α → α) : List α → Except ChainError α
  | [] => Except.error ChainError.emptySequence
  | x :: xs => Except.ok (foldRun fn x xs)

/-- Loop body of ChainIter.nth. -/
def nthGo {γ : Type} : Nat → List (Option γ) → Option γ
  | _, [] => Option.none
  | 0, x :: _ => x
  | k + 1, _ :: xs => nthGo k xs

/-- ChainIter.nth. -/
def nthRun {γ : Type} (n : Int) (l : List (Option γ)) : Option γ :=
  if n < 0 then Option.none else nthGo n.toNat l

/-- Draining loop of `itertools.islice(it, n)` for nonnegative n. -/
def takeGo {α : Type} : Nat → List α → List α
  | 0, _ => []
  | _ + 1, [] => []
  | k + 1, x :: xs => x :: takeGo k xs

/-- ChainIter.take followed by collect. -/
def takeRun {α : Type} (n : Int) (l : List α) : Except PyError (List α) :=
  if n < 0 then Except.error PyError.valueError
  else Except.ok (takeGo n.toNat l)

/-- ChainIter.take_while followed by collect, with the cursor state left
behind. -/
def takewhileRun {α : Type} (fn : α → Bool) : List α → List α × List α
  | [] => ([], [])
  | x :: xs =>
    if fn x then
      let r := takewhileRun fn xs
      (x :: r.1, r.2)
    else ([], xs)

/-- ChainIter.zip followed by collect: `zip(self.__iter__(), other)`. -/
def zipRun {α β : Type} : List α → List β → List (α × β)
  | x :: xs, y :: ys => (x, y) :: zipRun xs ys
  | _, _ => []

/-- ChainIter.zip_longest followed by collect:
`itertools.zip_longest(self.__iter__(), other)`. -/
def zipLongestRun {α β : Type} : List α → List β → List (Option α × Option β)
  | [], [] => []
  | x :: xs, [] => (Option.some x, Option.none) :: zipLongestRun xs []
  | [], y :: ys => (Option.none, Option.some y) :: zipLongestRun ([] : List α) ys
  | x :: xs, y :: ys => (Option.some x, Option.some y) :: zipLongestRun xs ys

/-- Loop of the `enumerate` built-in with a running index. -/
def enumGo {α : Type} : Nat → List α → List (Nat × α)
  | _, [] => []
  | i, x :: xs => (i, x) :: enumGo (i + 1) xs

/-- ChainIter.enumerate followed by collect. -/
def enumerateRun {α : Type} (l : List α) : List (Nat × α) :=
  enumGo 0 l

/-- The chainiter decorator: forwards arguments unchanged and wraps only the
return value. -/
def decoratorRun {γ α : Type} (fn : γ → List α) : γ → List α :=
  fun a => fn a

end chainiter

/-- Spec-side description of zip_longest, written from the spec's words for
comparison with the translated code: max(len S, len T) pairs, pair i holding
position i of each side when present and the absent marker when the side is
missing that position. -/
def zipLongestSpec {α β : Type} (s : List α) (t : List β) :
    List (Option α × Option β) :=
  (List.range (max s.length t.length)).map (fun i => (s.get? i, t.get? i))

/-! Helper lemmas relating the translated loops to the standard list
functions. -/

theorem collectRun_eq {α : Type} (l : List α) : chainit.collectRun l = l := by
  induction l with
  | nil => rfl
  | cons x xs ih => simp [chainit.collectRun, ih]

theorem collectListRun_eq {α : Type} (l : List α) : chainit.collectListRun l = l := by
  induction l with
  | nil => rfl
  | cons x xs ih => simp [chainit.collectListRun, ih]

theorem drainRun_eq {α : Type} (l : List α) : chainit.drainRun l = [] := by
  induction l with
  | nil => rfl
  | cons x xs ih => simpa [chainit.drainRun] using ih

theorem mapRun_eq {α β : Type} (fn : α → β) (l : List α) :
    chainit.mapRun fn l = l.map fn := by
  induction l with
  | nil => rfl
  | cons x xs ih => simp [chainit.mapRun, ih]

theorem filterRun_eq {α : Type} (p : α → Bool) (l : List α) :
    chainit.filterRun p l = l.filter p := by
  induction l with
  | nil => rfl
  | cons x xs ih =>
    by_cases h : p x <;> simp [chainit.filterRun, List.filter_cons, h, ih]

theorem filterMapRun_eq {α β : Type} (fn : α → Option β) (l : List α) :
    chainit.filterMapRun fn l = l.filterMap fn := by
  induction l with
  | nil => rfl
  | cons x xs ih =>
    cases h : fn x <;> simp [chainit.filterMapRun, List.filterMap_cons, h, ih]

theorem foldRun_eq {α β : Type} (fn : β → α → β) (i : β) (l : List α) :
    chainit.foldRun fn i l = l.foldl fn i := by
  induction l generalizing i with
  | nil => rfl
  | cons x xs ih => simp [chainit.foldRun, ih]

theorem takeGo_eq {α : Type} : ∀ (n : Nat) (l : List α),
    chainit.takeGo n l = l.take n
  | 0, _ => rfl
  | _ + 1, [] => rfl
  | n + 1, x :: xs => by simp [chainit.takeGo, takeGo_eq n xs]

theorem takeStreamGo_length {α : Type} : ∀ (n : Nat) (s : Stream' α),
    (chainit.takeStreamGo n s).length = n
  | 0, _ => rfl
  | n + 1, s => by simp [chainit.takeStreamGo, takeStreamGo_length n s.tail]

theorem zipRun_eq {α β : Type} : ∀ (s : List α) (t : List β),
    chainit.zipRun s t = s.zip t
  | [], _ => by simp [chainit.zipRun]
  | _ :: _, [] => by simp [chainit.zipRun]
  | x :: xs, y :: ys => by simp [chainit.zipRun, zipRun_eq xs ys]

theorem zipLongestRun_eq_spec {α β : Type} : ∀ (s : List α) (t : List β),
    chainit.zipLongestRun s t = zipLongestSpec s t
  | [], [] => by simp [chainit.zipLongestRun, zipLongestSpec]
  | x :: xs, [] => by
    have ih := zipLongestRun_eq_spec xs ([] : List β)
    simp [chainit.zipLongestRun, zipLongestSpec, List.range_succ_eq_map,
      List.map_map, Function.comp, ih]
  | [], y :: ys => by
    have ih := zipLongestRun_eq_spec ([] : List α) ys
    simp [chainit.zipLongestRun, zipLongestSpec, List.range_succ_eq_map,
      List.map_map, Function.comp, ih]
  | x :: xs, y :: ys => by
    have ih := zipLongestRun_eq_spec xs ys
    simp [chainit.zipLongestRun, zipLongestSpec, List.range_succ_eq_map,
      List.map_map, Function.comp, Nat.succ_max_succ, ih]

theorem nthGo_nil {γ : Type} (k : Nat) :
    chainit.nthGo k ([] : List (Option γ)) = Option.none := by
  cases k <;> rfl

theorem nthGo_none_iff {γ : Type} : ∀ (k : Nat) (l : List (Option γ)),
    Option.none ∉ l → (chainit.nthGo k l = Option.none ↔ l.length ≤ k)
  | k, [] => by simp [nthGo_nil]
  | 0, x :: xs => by
    intro h
    simp only [chainit.nthGo, List.length_cons]
    constructor
    · intro hx
      exact absurd (hx ▸ List.mem_cons_self x xs) h
    · omega
  | k + 1, x :: xs => by
    intro h
    have ih := nthGo_none_iff k xs (fun hmem => h (List.mem_cons_of_mem x hmem))
    simpa [chainit.nthGo, Nat.succ_le_succ_iff] using ih

theorem findRun_none_iff {γ : Type} (p : Option γ → Bool) (l : List (Option γ))
    (h : Option.none ∉ l) :
    chainit.findRun p l = Option.none ↔ ∀ x ∈ l, p x = false := by
  induction l with
  | nil => simp [chainit.findRun]
  | cons x xs ih =>
    have hx : x ≠ Option.none := fun hx => h (hx ▸ List.mem_cons_self x xs)
    have hxs : Option.none ∉ xs := fun hmem => h (List.mem_cons_of_mem x hmem)
    by_cases hp : p x
    · simp only [chainit.findRun, if_pos hp]
      constructor
      · intro hx2; exact absurd hx2 hx
      · intro hall; exact absurd hp (by simpa using hall x (List.mem_cons_self x xs))
    · simp only [chainit.findRun, if_neg hp]
      rw [ih hxs]
      constructor
      · intro hall y hy
        rcases List.mem_cons.1 hy with rfl | hy2
        · simpa using hp
        · exact hall y hy2
      · intro hall y hy; exact hall y (List.mem_cons_of_mem x hy)

/-! Claim theorems. -/

/-- C1: reduce on a cursor that yields zero elements fails with the
EmptySequence error, for any binary function, and no reduction step is
performed before the error (the result does not depend on the function), in
both packages. -/
theorem reduce_empty_raises {α : Type} (fn gn : α → α → α) :
    chainit.reduceRun fn ([] : List α) = Except.error chainit.ChainError.emptySequence
    ∧ chainiter.reduceRun fn ([] : List α) = Except.error chainiter.ChainError.emptySequence
    ∧ chainit.reduceRun fn ([] : List α) = chainit.reduceRun gn ([] : List α) :=
  ⟨rfl, rfl, rfl⟩

/-- C4 counterexample: after `m = c.map fn`, pulling directly from `c` does
not raise any reuse error: it returns the head of the shared cursor and
silently advances it, so `m.collect()` afterwards misses that element (here
the pull returns 0 and the mapped collect yields only (11, 12)). -/
theorem reuse_after_map_cex :
    chainit.reuseAfterMap (fun x => x + 10) [0, 1, 2] = (Option.some 0, [11, 12])
    ∧ chainit.pyNext [0, 1, 2] = Option.some (0, [1, 2]) := by
  constructor <;> rfl

/-- C4 amended: pulling from the original instance after handing its cursor
to map raises nothing and is representable: it returns the first element of
the shared cursor (silently advancing it), and the mapped instance then
collects fn applied to the remaining elements only. -/
theorem reuse_after_map_amended {α β : Type} (fn : α → β) (x : α) (xs : List α) :
    chainit.reuseAfterMap fn (x :: xs) = (Option.some x, chainit.mapRun fn xs) := by
  simp [chainit.reuseAfterMap, chainit.pyNext, collectRun_eq]

/-- C5: take_while yields the longest prefix on which the predicate holds
(so it never resumes after the first failure), and the first failing element
is consumed from the cursor but not yielded: the cursor state left behind is
the suffix strictly after that element. -/
theorem takewhile_spec {α : Type} (p : α → Bool) (l : List α) :
    chainit.takewhileRun p l = (l.takeWhile p, (l.dropWhile p).tail) := by
  induction l with
  | nil => rfl
  | cons x xs ih =>
    by_cases h : p x <;>
      simp [chainit.takewhileRun, List.takeWhile_cons, List.dropWhile_cons, h, ih]

/-- C6: collecting filter of a finite cursor gives exactly the elements of
the collected cursor satisfying the predicate, in their original order. -/
theorem filter_collect_spec {α : Type} (p : α → Bool) (l : List α) :
    chainit.collectRun (chainit.filterRun p l) = (chainit.collectRun l).filter p := by
  simp [collectRun_eq, filterRun_eq]

/-- C8: fold applies the function left-to-right over the elements starting
from the initializer, and returns the initializer unchanged on an empty
cursor. -/
theorem fold_spec {α β : Type} (fn : β → α → β) (i : β) (l : List α) :
    chainit.foldRun fn i l = l.foldl fn i
    ∧ chainit.foldRun fn i ([] : List α) = i :=
  ⟨foldRun_eq fn i l, rfl⟩

/-- C10: a terminal operation that fully drains the cursor leaves it
exhausted, and every subsequent terminal operation on that exhausted cursor
returns its neutral result without raising: collect and collect_list the
empty sequence, find and nth the absent marker, fold its initializer. -/
theorem exhausted_terminal_neutral {α β : Type} (l : List (Option α))
    (p : Option α → Bool) (fn : β → Option α → β) (i : β) (n : Int) :
    chainit.drainRun l = ([] : List (Option α))
    ∧ chainit.collectRun (chainit.drainRun l) = []
    ∧ chainit.collectListRun (chainit.drainRun l) = []
    ∧ chainit.findRun p (chainit.drainRun l) = Option.none
    ∧ chainit.nthRun n (chainit.drainRun l) = Option.none
    ∧ chainit.foldRun fn i (chainit.drainRun l) = i := by
  have h := drainRun_eq l
  refine ⟨h, ?_, ?_, ?_, ?_, ?_⟩ <;> rw [h]
  · rfl
  · rfl
  · rfl
  · simp only [chainit.nthRun, nthGo_nil]
    split <;> rfl
  · rfl

/-- C2 counterexample: the absent marker is Python None, which is itself a
domain value, so when the marker value occurs as an element the caller cannot
distinguish the outcomes: find and nth on the one-element cursor (None) return
exactly the same result as on the empty cursor, and filter_map of a function
producing None yields the same empty output whether the element was dropped
or never there. -/
theorem absent_marker_conflation_cex :
    chainit.findRun (fun _ => true) [(Option.none : Option Nat)]
        = chainit.findRun (fun _ => true) ([] : List (Option Nat))
    ∧ chainit.findRun (fun _ => true) ([] : List (Option Nat)) = Option.none
    ∧ chainit.nthRun 0 [(Option.none : Option Nat)]
        = chainit.nthRun 0 ([] : List (Option Nat))
    ∧ chainit.filterMapRun (fun _ : Nat => (Option.none : Option Nat)) [0]
        = chainit.filterMapRun (fun _ : Nat => (Option.none : Option Nat)) [] := by
  refine ⟨rfl, rfl, ?_, rfl⟩
  rfl

/-- C2 amended: the absent marker of find, nth and filter_map is Python None;
it is distinguishable from every legitimately yielded falsy or empty element
other than None itself.  On a source containing no None element, find returns
the marker exactly when no element satisfies the predicate, nth (at a
nonnegative index) returns the marker exactly when the index is out of range,
and filter_map yields exactly the non-None results of the function, so a
dropped element is exactly one on which the function returned None. -/
theorem absent_marker_distinguishable {α β γ : Type}
    (l : List (Option α)) (p : Option α → Bool) (h : Option.none ∉ l)
    (fn : γ → Option β) (m : List γ) (n : Int) (hn : 0 ≤ n) :
    (chainit.findRun p l = Option.none ↔ ∀ x ∈ l, p x = false)
    ∧ (chainit.nthRun n l = Option.none ↔ l.length ≤ n.toNat)
    ∧ (∀ b : β, b ∈ chainit.filterMapRun fn m ↔ ∃ a ∈ m, fn a = Option.some b) := by
  refine ⟨findRun_none_iff p l h, ?_, ?_⟩
  · have hn2 : ¬ n < 0 := by omega
    simp only [chainit.nthRun, if_neg hn2]
    exact nthGo_none_iff n.toNat l h
  · intro b
    rw [filterMapRun_eq]
    simp [List.mem_filterMap]

/-- Witness for the amended C2 at a concrete cursor without None elements. -/
theorem absent_marker_distinguishable_witness :
    Option.none ∉ [Option.some (0 : Nat)]
    ∧ ((chainit.findRun (fun x => x.isSome) [Option.some (0 : Nat)] = Option.none
          ↔ ∀ x ∈ [Option.some (0 : Nat)], (fun x : Option Nat => x.isSome) x = false)
        ∧ (chainit.nthRun 5 [Option.some (0 : Nat)] = Option.none
          ↔ List.length [Option.some (0 : Nat)] ≤ Int.toNat 5)
        ∧ (∀ b : Nat,
            b ∈ chainit.filterMapRun
                (fun a : Nat => if a = 0 then Option.none else Option.some a) [0, 1]
              ↔ ∃ a ∈ [0, 1],
                  (fun a : Nat => if a = 0 then Option.none else Option.some a) a
                    = Option.some b)) :=
  ⟨by decide,
   absent_marker_distinguishable [Option.some (0 : Nat)] (fun x => x.isSome)
     (by decide) (fun a : Nat => if a = 0 then Option.none else Option.some a)
     [0, 1] 5 (by decide)⟩

/-- C3 counterexample: take with a negative count raises a ValueError at call
time (islice rejects a negative stop argument) instead of yielding an empty
collection. -/
theorem take_negative_cex :
    chainit.takeRun (-1) ([] : List Nat) = Except.error chainit.PyError.valueError
    ∧ chainit.takeRun (-1) ([] : List Nat) ≠ Except.ok [] := by
  refine ⟨rfl, ?_⟩
  intro hcontra
  simp [chainit.takeRun] at hcontra

/-- C3 amended: for n ≥ 0, take(n) followed by collect yields the first n
elements in order — length min(n, len S) for a finite source and exactly n
for an infinite source — and n = 0 yields the empty collection; for n < 0
the call raises ValueError instead of yielding nothing. -/
theorem take_spec_amended {α β : Type} (l : List α) (s : Stream' β) (n : Int) :
    (0 ≤ n → chainit.takeRun n l = Except.ok (l.take n.toNat)
        ∧ (l.take n.toNat).length = min n.toNat l.length)
    ∧ (0 ≤ n → ∃ r, chainit.takeStreamRun n s = Except.ok r ∧ r.length = n.toNat)
    ∧ (n < 0 → chainit.takeRun n l = Except.error chainit.PyError.valueError
        ∧ chainit.takeStreamRun n s = Except.error chainit.PyError.valueError) := by
  refine ⟨?_, ?_, ?_⟩
  · intro hn
    have hn2 : ¬ n < 0 := by omega
    refine ⟨?_, List.length_take n.toNat l⟩
    simp [chainit.takeRun, if_neg hn2, takeGo_eq]
  · intro hn
    have hn2 : ¬ n < 0 := by omega
    exact ⟨chainit.takeStreamGo n.toNat s,
      by simp [chainit.takeStreamRun, if_neg hn2],
      takeStreamGo_length n.toNat s⟩
  · intro hn
    constructor <;> simp [chainit.takeRun, chainit.takeStreamRun, if_pos hn]

/-- Witness for the amended C3: a nonnegative and a negative count on a
concrete finite cursor. -/
theorem take_spec_amended_witness :
    (chainit.takeRun 2 [(5 : Nat), 6, 7] = Except.ok (List.take (Int.toNat 2) [5, 6, 7])
      ∧ (List.take (Int.toNat 2) [(5 : Nat), 6, 7]).length
          = min (Int.toNat 2) (List.length [(5 : Nat), 6, 7]))
    ∧ chainit.takeRun (-1) [(5 : Nat), 6, 7] = Except.error chainit.PyError.valueError :=
  ⟨(take_spec_amended [(5 : Nat), 6, 7] ((fun i => i) : Stream' Nat) 2).1 (by decide),
   ((take_spec_amended [(5 : Nat), 6, 7] ((fun i => i) : Stream' Nat) (-1)).2.2
      (by decide)).1⟩

/-- C7: zip produces exactly min(len S, len T) positional pairs, and
zip_longest produces exactly max(len S, len T) pairs where pair i pairs
position i of each side, the exhausted shorter side contributing the absent
marker at its missing positions. -/
theorem zip_lengths_spec {α β : Type} (s : List α) (t : List β) :
    (chainit.zipRun s t).length = min s.length t.length
    ∧ (chainit.zipLongestRun s t).length = max s.length t.length
    ∧ ∀ i, i < max s.length t.length →
        (chainit.zipLongestRun s t).get? i = Option.some (s.get? i, t.get? i) := by
  refine ⟨?_, ?_, ?_⟩
  · rw [zipRun_eq]; exact List.length_zip s t
  · rw [zipLongestRun_eq_spec]
    simp [zipLongestSpec]
  · intro i hi
    rw [zipLongestRun_eq_spec]
    simp only [zipLongestSpec, List.get?_eq_getElem?, List.getElem?_map,
      List.getElem?_range hi, Option.map_some']

/-- Witness for C7 at concrete cursors of lengths 3 and 1, probing a padded
position. -/
theorem zip_lengths_spec_witness :
    (chainit.zipRun [(1 : Nat), 2, 3] [true]).length
        = min (List.length [(1 : Nat), 2, 3]) (List.length [true])
    ∧ (chainit.zipLongestRun [(1 : Nat), 2, 3] [true]).length
        = max (List.length [(1 : Nat), 2, 3]) (List.length [true])
    ∧ (chainit.zipLongestRun [(1 : Nat), 2, 3] [true]).get? 2
        = Option.some (List.get? [(1 : Nat), 2, 3] 2, List.get? [true] 2) :=
  ⟨(zip_lengths_spec [(1 : Nat), 2, 3] [true]).1,
   (zip_lengths_spec [(1 : Nat), 2, 3] [true]).2.1,
   (zip_lengths_spec [(1 : Nat), 2, 3] [true]).2.2 2 (by decide)⟩

/-! Per-operation equalities between the two packages. -/

theorem collect_pkg_eq {α : Type} (l : List α) :
    chainit.collectRun l = chainiter.collectRun l := by
  induction l with
  | nil => rfl
  | cons x xs ih => simp [chainit.collectRun, chainiter.collectRun, ih]

theorem collectList_pkg_eq {α : Type} (l : List α) :
    chainit.collectListRun l = chainiter.collectListRun l := by
  induction l with
  | nil => rfl
  | cons x xs ih => simp [chainit.collectListRun, chainiter.collectListRun, ih]

theorem pyNext_pkg_eq {α : Type} (l : List α) :
    chainit.pyNext l = chainiter.pyNext l := by
  cases l <;> rfl

theorem map_pkg_eq {α β : Type} (fn : α → β) (l : List α) :
    chainit.mapRun fn l = chainiter.mapRun fn l := by
  induction l with
  | nil => rfl
  | cons x xs ih => simp [chainit.mapRun, chainiter.mapRun, ih]

theorem filter_pkg_eq {α : Type} (p : α → Bool) (l : List α) :
    chainit.filterRun p l = chainiter.filterRun p l := by
  induction l with
  | nil => rfl
  | cons x xs ih =>
    by_cases h : p x <;> simp [chainit.filterRun, chainiter.filterRun, h, ih]

theorem filterMap_pkg_eq {α β : Type} (fn : α → Option β) (l : List α) :
    chainit.filterMapRun fn l = chainiter.filterMapRun fn l := by
  induction l with
  | nil => rfl
  | cons x xs ih =>
    cases h : fn x <;> simp [chainit.filterMapRun, chainiter.filterMapRun, h, ih]

theorem find_pkg_eq {γ : Type} (p : Option γ → Bool) (l : List (Option γ)) :
    chainit.findRun p l = chainiter.findRun p l := by
  induction l with
  | nil => rfl
  | cons x xs ih =>
    by_cases h : p x <;> simp [chainit.findRun, chainiter.findRun, h, ih]

theorem flatMap_pkg_eq {α β : Type} (fn : α → List β) (l : List α) :
    chainit.flatMapRun fn l = chainiter.flatMapRun fn l := by
  induction l with
  | nil => rfl
  | cons x xs ih => simp [chainit.flatMapRun, chainiter.flatMapRun, ih]

theorem fold_pkg_eq {α β : Type} (fn : β → α → β) (i : β) (l : List α) :
    chainit.foldRun fn i l = chainiter.foldRun fn i l := by
  induction l generalizing i with
  | nil => rfl
  | cons x xs ih => simp [chainit.foldRun, chainiter.foldRun, ih]

theorem takeGo_pkg_eq {α : Type} : ∀ (k : Nat) (l : List α),
    chainit.takeGo k l = chainiter.takeGo k l
  | 0, _ => rfl
  | _ + 1, [] => rfl
  | k + 1, x :: xs => by
    simp [chainit.takeGo, chainiter.takeGo, takeGo_pkg_eq k xs]

theorem nthGo_pkg_eq {γ : Type} : ∀ (k : Nat) (l : List (Option γ)),
    chainit.nthGo k l = chainiter.nthGo k l
  | k, [] => by cases k <;> rfl
  | 0, _ :: _ => rfl
  | k + 1, _ :: xs => nthGo_pkg_eq k xs

theorem takewhile_pkg_eq {α : Type} (p : α → Bool) (l : List α) :
    chainit.takewhileRun p l = chainiter.takewhileRun p l := by
  induction l with
  | nil => rfl
  | cons x xs ih =>
    by_cases h : p x <;> simp [chainit.takewhileRun, chainiter.takewhileRun, h, ih]

theorem zip_pkg_eq {α β : Type} : ∀ (s : List α) (t : List β),
    chainit.zipRun s t = chainiter.zipRun s t
  | [], _ => by simp [chainit.zipRun, chainiter.zipRun]
  | _ :: _, [] => by simp [chainit.zipRun, chainiter.zipRun]
  | x :: xs, y :: ys => by
    simp [chainit.zipRun, chainiter.zipRun, zip_pkg_eq xs ys]

theorem zipLongest_pkg_eq {α β : Type} : ∀ (s : List α) (t : List β),
    chainit.zipLongestRun s t = chainiter.zipLongestRun s t
  | [], [] => by simp [chainit.zipLongestRun, chainiter.zipLongestRun]
  | x :: xs, [] => by
    simp [chainit.zipLongestRun, chainiter.zipLongestRun,
      zipLongest_pkg_eq xs ([] : List β)]
  | [], y :: ys => by
    simp [chainit.zipLongestRun, chainiter.zipLongestRun,
      zipLongest_pkg_eq ([] : List α) ys]
  | x :: xs, y :: ys => by
    simp [chainit.zipLongestRun, chainiter.zipLongestRun, zipLongest_pkg_eq xs ys]

theorem enumGo_pkg_eq {α : Type} : ∀ (i : Nat) (l : List α),
    chainit.enumGo i l = chainiter.enumGo i l
  | _, [] => rfl
  | i, x :: xs => by simp [chainit.enumGo, chainiter.enumGo, enumGo_pkg_eq (i + 1) xs]

/-- C9: the chainit and chainiter packages are behaviorally equivalent: every
operation of the ChainIt class, applied to any cursor and any arguments,
produces the same result as the corresponding operation of the ChainIter
class, and the two decorators perform the same wrapping; any chain of
operations is a composition of these, so whole pipelines are equal as well.
For reduce and take the error values live in per-package types, so equality
is stated on the Option view, which determines the result because each error
type has exactly one value. -/
theorem packages_equivalent {α β γ : Type} (d : DecidableEq α) :
    (∀ l : List α, chainit.collectRun l = chainiter.collectRun l)
    ∧ (∀ l : List α, chainit.collectListRun l = chainiter.collectListRun l)
    ∧ (∀ l : List α, chainit.collectSetRun d l = chainiter.collectSetRun d l)
    ∧ (∀ (fn : List α → β) (l : List α),
        chainit.collectWithRun fn l = chainiter.collectWithRun fn l)
    ∧ (∀ l : List α, chainit.pyNext l = chainiter.pyNext l)
    ∧ (∀ (fn : α → β) (l : List α), chainit.mapRun fn l = chainiter.mapRun fn l)
    ∧ (∀ (p : α → Bool) (l : List α), chainit.filterRun p l = chainiter.filterRun p l)
    ∧ (∀ (fn : α → Option β) (l : List α),
        chainit.filterMapRun fn l = chainiter.filterMapRun fn l)
    ∧ (∀ (p : Option α → Bool) (l : List (Option α)),
        chainit.findRun p l = chainiter.findRun p l)
    ∧ (∀ (fn : α → List β) (l : List α),
        chainit.flatMapRun fn l = chainiter.flatMapRun fn l)
    ∧ (∀ (fn : β → α → β) (i : β) (l : List α),
        chainit.foldRun fn i l = chainiter.foldRun fn i l)
    ∧ (∀ (fn : α → α → α) (l : List α),
        (chainit.reduceRun fn l).toOption = (chainiter.reduceRun fn l).toOption)
    ∧ (∀ (n : Int) (l : List α),
        (chainit.takeRun n l).toOption = (chainiter.takeRun n l).toOption)
    ∧ (∀ (n : Int) (l : List (Option α)), chainit.nthRun n l = chainiter.nthRun n l)
    ∧ (∀ (p : α → Bool) (l : List α),
        chainit.takewhileRun p l = chainiter.takewhileRun p l)
    ∧ (∀ (s : List α) (t : List β), chainit.zipRun s t = chainiter.zipRun s t)
    ∧ (∀ (s : List α) (t : List β),
        chainit.zipLongestRun s t = chainiter.zipLongestRun s t)
    ∧ (∀ l : List α, chainit.enumerateRun l = chainiter.enumerateRun l)
    ∧ (∀ fn : γ → List α, chainit.decoratorRun fn = chainiter.decoratorRun fn) := by
  refine ⟨collect_pkg_eq, collectList_pkg_eq, ?_, ?_, pyNext_pkg_eq, map_pkg_eq,
    filter_pkg_eq, filterMap_pkg_eq, find_pkg_eq, flatMap_pkg_eq, fold_pkg_eq,
    ?_, ?_, ?_, takewhile_pkg_eq, zip_pkg_eq, zipLongest_pkg_eq, ?_, fun _ => rfl⟩
  · intro l
    simp [chainit.collectSetRun, chainiter.collectSetRun, collect_pkg_eq l]
  · intro fn l
    simp [chainit.collectWithRun, chainiter.collectWithRun, collect_pkg_eq l]
  · intro fn l
    cases l with
    | nil => rfl
    | cons x xs =>
      simp only [chainit.reduceRun, chainiter.reduceRun, fold_pkg_eq fn x xs]
      rfl
  · intro n l
    by_cases h : n < 0
    · simp only [chainit.takeRun, chainiter.takeRun, if_pos h]
      rfl
    · simp only [chainit.takeRun, chainiter.takeRun, if_neg h, takeGo_pkg_eq n.toNat l]
      rfl
  · intro n l
    by_cases h : n < 0 <;>
      simp [chainit.nthRun, chainiter.nthRun, h, nthGo_pkg_eq n.toNat l]
  · intro l
    simp [chainit.enumerateRun, chainiter.enumerateRun, enumGo_pkg_eq 0 l]

/-- Witness for C9 at a concrete cursor (the DecidableEq argument is
instantiated at Nat). -/
theorem packages_equivalent_witness :
    chainit.collectRun [(0 : Nat), 1, 2] = chainiter.collectRun [(0 : Nat), 1, 2] :=
  (@packages_equivalent Nat Nat Nat (fun a b => Nat.decEq a b)).1 [(0 : Nat), 1, 2]
